import Mathlib

/-!
Verification development for the `decentralized-ffi` repository.

The subject of this development is the repository's core subsystem: the
varint codec, the rune/runestone protocol parser
(src/decentralized-ffi/src/ordinal/rune/rune.rs, rune_id.rs), the dummy
transaction fee-estimation helper (ordinal/dummy_transaction.rs) and the
four snipe/split PSBT builders (ordinal/snipe.rs).

Machine integers of the source (u32/u64/u128) are modelled as `Nat`, with
explicit bounds (`< 2 ^ 32` etc.) and explicit `% 2 ^ 64` where the source
performs an `as` cast; `checked_sub`/`checked_add`/`try_into` are modelled
with `Option`; a Rust panic (an unchecked `Amount` subtraction
underflowing) is modelled as `none` in an outer `Option` layer.
-/

namespace DFfi

/-! ## VarInt codec

The module `crate::ordinal::rune::varint` is referenced by rune.rs but its
file is not part of the source tree, so the codec is modelled from the
specification. -/

namespace varint

/-- Modelled from the spec: the missing module `crate::ordinal::rune::varint`.
Little-endian-group encoding, 7 data bits per byte, high bit set on every
byte except the last.  `encodeGo` is the encoding loop; the structural fuel
argument only bounds the number of emitted bytes, 19 bytes are enough for
any `u128` (the codec's domain), and the fuel-exhausted base case simply
emits the remaining value. -/
def encodeGo : Nat → Nat → List Nat
  | 0, n => [n]
  | fuel + 1, n => if n < 128 then [n] else (n % 128 + 128) :: encodeGo fuel (n / 128)

/-- Modelled from the spec: `encode_to_vec(value: u128, out)`.  The `out`
accumulation is returned as the list of written bytes.  No error path. -/
def encode_to_vec (n : Nat) : List Nat := encodeGo 19 n

/-- Modelled from the spec: the reading loop of `decode` — read bytes while
the continuation bit (high bit) is set, accumulating 7 data bits per byte,
little-endian; fail (`none`) if the input ends mid-sequence.  Returns the
value and the number of consumed bytes. -/
def decodeCore : List Nat → Option (Nat × Nat)
  | [] => none
  | b :: rest =>
    if b < 128 then some (b, 1)
    else
      match decodeCore rest with
      | none => none
      | some (v, len) => some ((b - 128) + 128 * v, len + 1)

/-- Modelled from the spec: `decode(bytes) -> Result<(u128, consumed_len)>`,
failing on a truncated sequence or when the accumulated value overflows
`u128`. -/
def decode (l : List Nat) : Option (Nat × Nat) :=
  match decodeCore l with
  | none => none
  | some (v, len) => if v < 2 ^ 128 then some (v, len) else none

theorem decodeCore_consumes {l : List Nat} {v n : Nat} (h : decodeCore l = some (v, n)) :
    1 ≤ n ∧ n ≤ l.length := by
  induction l generalizing v n with
  | nil => simp [decodeCore] at h
  | cons b rest ih =>
    rw [decodeCore] at h
    by_cases hb : b < 128
    · simp [hb] at h
      simp only [List.length_cons]
      omega
    · simp only [if_neg hb] at h
      cases hrec : decodeCore rest with
      | none => rw [hrec] at h; simp at h
      | some p =>
        obtain ⟨v0, len0⟩ := p
        rw [hrec] at h
        simp at h
        have := ih hrec
        simp
        omega

theorem decodeCore_encodeGo (fuel : Nat) :
    ∀ (n : Nat) (rest : List Nat), n < 128 ^ fuel →
      decodeCore (encodeGo fuel n ++ rest) = some (n, (encodeGo fuel n).length) := by
  induction fuel with
  | zero =>
    intro n rest h
    simp at h
    subst h
    simp [encodeGo, decodeCore]
  | succ fuel ih =>
    intro n rest h
    simp only [encodeGo]
    by_cases hn : n < 128
    · simp [hn, decodeCore]
    · simp only [if_neg hn, List.cons_append]
      rw [decodeCore]
      have hge : ¬ (n % 128 + 128 < 128) := by omega
      simp only [if_neg hge]
      have hdiv : n / 128 < 128 ^ fuel := by
        rw [pow_succ] at h
        omega
      rw [ih (n / 128) rest hdiv]
      simp only [Option.some.injEq, Prod.mk.injEq, List.length_cons]
      constructor
      · omega
      · trivial

end varint

/-! ## RuneId (ordinal/rune/rune_id.rs) -/

/-- `RuneId { block: u64, tx: u32 }`. -/
structure RuneId where
  block : Nat
  tx : Nat
deriving DecidableEq, Repr

/-- The validity invariant enforced by `RuneId::new` together with the field
widths: `block: u64`, `tx: u32`, and `block == 0 ⟹ tx == 0`. -/
def RuneId.Valid (r : RuneId) : Prop :=
  r.block < 2 ^ 64 ∧ r.tx < 2 ^ 32 ∧ (r.block = 0 → r.tx = 0)

/-- `RuneId::new(block, tx)`: errors (`ParseRuneIdError::InvalidRuneId`,
modelled as `none`) iff `block == 0 && tx > 0`. -/
def RuneId.new (block tx : Nat) : Option RuneId :=
  if block = 0 ∧ 0 < tx then none else some ⟨block, tx⟩

/-- `RuneId::delta(self, next)`: `Δblock = next.block.checked_sub(self.block)?`;
`Δtx` is `next.tx.checked_sub(self.tx)?` when `Δblock == 0`, otherwise
`next.tx` directly.  The two results are widened to `u128`. -/
def RuneId.delta (a b : RuneId) : Option (Nat × Nat) :=
  if b.block < a.block then none
  else
    let block := b.block - a.block
    if block = 0 then
      if b.tx < a.tx then none else some (block, b.tx - a.tx)
    else some (block, b.tx)

/-- `RuneId::next(self, block: u128, tx: u128)`:
`block: self.block.checked_add(block.try_into().ok()?)?` and
`tx: if block == 0 { self.tx.checked_add(tx.try_into().ok()?)? } else { tx.try_into().ok()? }`,
with `try_into` to `u64` (resp. `u32`) failing on out-of-range values. -/
def RuneId.next (a : RuneId) (block tx : Nat) : Option RuneId :=
  if block < 2 ^ 64 then
    if a.block + block < 2 ^ 64 then
      if block = 0 then
        if tx < 2 ^ 32 then
          if a.tx + tx < 2 ^ 32 then some ⟨a.block + block, a.tx + tx⟩ else none
        else none
      else if tx < 2 ^ 32 then some ⟨a.block + block, tx⟩ else none
    else none
  else none

/-! ## Rune / runestone parser (ordinal/rune/rune.rs) -/

/-- The FFI `Edict` record of rune.rs: `{ id: Arc<RuneId>, amount: u64,
output: u32 }`.  Note the `amount` field of this record is a `u64`, unlike
the `ordinals` crate's `Edict` whose amount is a `u128`. -/
structure Edict where
  id : RuneId
  amount : Nat
  output : Nat
deriving DecidableEq, Repr

/-- The error enum `RuneParseError` (the `DecodePayload` message string is
dropped; the variant is only ever converted to `NoRune` by the parser). -/
inductive RuneParseError
  | NoOpReturn
  | NoMagicNumber
  | NoRune
  | DecodePayload
  | U128Tou32
deriving DecidableEq, Repr

/-- The decoded `Rune` variant. -/
inductive Rune
  | Edicts (edicts : List Edict)
  | Etching (rune_id : RuneId)
  | Nothing
deriving DecidableEq, Repr

/-- One entry of a script's instruction stream, as produced by
rust-bitcoin's `Script::instructions` iterator: an opcode, a data push, or
a script decoding error. -/
inductive Instr
  | op (n : Nat)
  | push (bytes : List Nat)
  | ierr
deriving DecidableEq, Repr

def OP_RETURN : Nat := 106

def OP_PUSHNUM_13 : Nat := 93

/-- The payload-gathering loop of `extract_rune_from_script`: concatenate
all push-data instructions, skipping other opcodes and errors. -/
def gatherPayload : List Instr → List Nat
  | [] => []
  | .push bs :: rest => bs ++ gatherPayload rest
  | .op _ :: rest => gatherPayload rest
  | .ierr :: rest => gatherPayload rest

/-- The helper `integers(payload)`: decode the payload as a flat sequence
of varints; any varint error is surfaced (as `none`; the caller turns it
into `NoRune`).  Structural fuel equal to the payload length bounds the
loop: each iteration consumes at least one byte
(`varint.decodeCore_consumes`), so the fuel is never exhausted. -/
def integersGo : Nat → List Nat → Option (List Nat)
  | _, [] => some []
  | 0, _ :: _ => none
  | fuel + 1, b :: rest =>
    match varint.decode (b :: rest) with
    | none => none
    | some (v, len) => (integersGo fuel ((b :: rest).drop len)).map (fun t => v :: t)

def integers (payload : List Nat) : Option (List Nat) := integersGo payload.length payload

/-- The `Tag::Body` edict loop of `extract_rune_from_script`: consume the
remaining integers in chunks of four `(Δblock, Δtx, amount, output)`.
An incomplete chunk stops the loop keeping prior edicts; a failing
`RuneId::next` stops the loop keeping prior edicts; an `output` exceeding
`u32::MAX` aborts the whole parse with `U128Tou32` (the `?` operator);
`amount` is narrowed by the `as u64` cast, i.e. reduced `% 2 ^ 64`. -/
def edictLoop (id : RuneId) (edicts : List Edict) : List Nat → Except RuneParseError (List Edict)
  | b :: t :: a :: o :: rest =>
    match RuneId.next id b t with
    | none => .ok edicts
    | some nid =>
      if o < 2 ^ 32 then
        edictLoop nid (edicts ++ [{ id := nid, amount := a % 2 ^ 64, output := o }]) rest
      else .error .U128Tou32
  | _ => .ok edicts

/-- The tag-keyed field dictionary `HashMap<u128, VecDeque<u128>>`, as an
association list (the parser only keys it by tag, never iterates it). -/
abbrev Fields := List (Nat × List Nat)

def fieldsInsert (fields : Fields) (tag v : Nat) : Fields :=
  match fields with
  | [] => [(tag, [v])]
  | (t, q) :: rest => if t = tag then (t, q ++ [v]) :: rest else (t, q) :: fieldsInsert rest tag v

def fieldsGet (fields : Fields) (tag : Nat) : Option (List Nat) :=
  match fields with
  | [] => none
  | (t, q) :: rest => if t = tag then some q else fieldsGet rest tag

/-- The main `(tag, value)` pairing loop (`for i in (0..integers.len()).step_by(2)`):
a `Body` tag (0) hands the remaining integers to the edict loop and breaks;
a tag without a following value breaks; other pairs are pushed into the
field dictionary. -/
def fieldLoop (fields : Fields) : List Nat → Fields × Except RuneParseError (List Edict)
  | [] => (fields, .ok [])
  | tag :: rest =>
    if tag = 0 then (fields, edictLoop ⟨0, 0⟩ [] rest)
    else
      match rest with
      | [] => (fields, .ok [])
      | v :: rest2 => fieldLoop (fieldsInsert fields tag v) rest2

/-- `Tag::Mint.take(&mut fields, |[block, tx]| RuneId::new(block.try_into().ok()?, tx.try_into().ok()?).ok())`:
read the first two queued values of tag 20, narrow them to `u64`/`u32`,
and build a `RuneId` through `RuneId::new`. -/
def mintTake (fields : Fields) : Option RuneId :=
  match fieldsGet fields 20 with
  | none => none
  | some q =>
    match q.get? 0, q.get? 1 with
    | some block, some tx =>
      if block < 2 ^ 64 then
        if tx < 2 ^ 32 then RuneId.new block tx else none
      else none
    | _, _ => none

/-- `extract_rune_from_script`: require `OP_RETURN` then `OP_PUSHNUM_13`,
gather the payload, decode it to integers (`NoRune` on failure), process
`(tag, value)` pairs and the `Body` edicts, and classify the result. -/
def extract_rune_from_script (script : List Instr) : Except RuneParseError Rune :=
  match script with
  | [] => .error .NoOpReturn
  | i1 :: rest =>
    if i1 = .op OP_RETURN then
      match rest with
      | [] => .error .NoMagicNumber
      | i2 :: rest2 =>
        if i2 = .op OP_PUSHNUM_13 then
          let payload := gatherPayload rest2
          match integers payload with
          | none => .error .NoRune
          | some ints =>
            match fieldLoop [] ints with
            | (_, .error e) => .error e
            | (fields, .ok edicts) =>
              if edicts.isEmpty then
                match mintTake fields with
                | some rid => .ok (.Etching rid)
                | none => .ok .Nothing
              else .ok (.Edicts edicts)
        else .error .NoMagicNumber
    else .error .NoOpReturn

/-! ## Helpers describing the shape of a runestone integer sequence -/

/-- Flatten a list of `(Δblock, Δtx, amount, output)` groups into the flat
integer sequence consumed by the `Body` loop. -/
def flattenGroups : List (Nat × Nat × Nat × Nat) → List Nat
  | [] => []
  | (b, t, a, o) :: gs => b :: t :: a :: o :: flattenGroups gs

/-- The cumulative rune id after applying each group's delta via
`RuneId::next`, starting from `id`. -/
def chainIds (id : RuneId) : List (Nat × Nat × Nat × Nat) → Option RuneId
  | [] => some id
  | (b, t, _, _) :: gs =>
    match RuneId.next id b t with
    | none => none
    | some nid => chainIds nid gs

/-- Every group's delta addition succeeds and its output index fits `u32`. -/
def groupsGood (id : RuneId) : List (Nat × Nat × Nat × Nat) → Bool
  | [] => true
  | (b, t, _, o) :: gs =>
    match RuneId.next id b t with
    | none => false
    | some nid => decide (o < 2 ^ 32) && groupsGood nid gs

/-- The edicts the `Body` loop produces from a list of good groups. -/
def edictsOf (id : RuneId) : List (Nat × Nat × Nat × Nat) → List Edict
  | [] => []
  | (b, t, a, o) :: gs =>
    match RuneId.next id b t with
    | none => []
    | some nid => { id := nid, amount := a % 2 ^ 64, output := o } :: edictsOf nid gs

/-- Flatten a list of `(tag, value)` pairs into the flat integer sequence
consumed by the field loop. -/
def flattenPairs : List (Nat × Nat) → List Nat
  | [] => []
  | (t, v) :: ps => t :: v :: flattenPairs ps

/-- No pair of the field section carries the `Body` tag (0). -/
def pairsNoBody (ps : List (Nat × Nat)) : Bool := ps.all (fun p => decide (p.1 ≠ 0))

/-- A `Body` trailer that the parser treats as a flaw at position `id`:
either a non-empty incomplete group (fewer than four integers) or a
complete group whose rune-id delta addition overflows. -/
def TailFlawed (id : RuneId) (tail : List Nat) : Prop :=
  (tail ≠ [] ∧ tail.length < 4) ∨
    (∃ b t a o rest, tail = b :: t :: a :: o :: rest ∧ RuneId.next id b t = none)

theorem edictLoop_flatten (gs : List (Nat × Nat × Nat × Nat)) :
    ∀ (id idEnd : RuneId) (acc : List Edict) (tail : List Nat),
      groupsGood id gs = true → chainIds id gs = some idEnd →
      edictLoop id acc (flattenGroups gs ++ tail) = edictLoop idEnd (acc ++ edictsOf id gs) tail := by
  induction gs with
  | nil =>
    intro id idEnd acc tail hg hc
    simp only [chainIds, Option.some.injEq] at hc
    subst hc
    simp [flattenGroups, edictsOf]
  | cons g gs ih =>
    obtain ⟨b, t, a, o⟩ := g
    intro id idEnd acc tail hg hc
    simp only [groupsGood] at hg
    simp only [chainIds] at hc
    simp only [flattenGroups, List.cons_append, edictsOf]
    cases hn : RuneId.next id b t with
    | none => rw [hn] at hg; simp at hg
    | some nid =>
      rw [hn] at hg hc
      simp only [Bool.and_eq_true, decide_eq_true_eq] at hg
      obtain ⟨ho, hg2⟩ := hg
      simp only [edictLoop]
      rw [hn]
      simp only [if_pos ho]
      have hrw := ih nid idEnd (acc ++ [(⟨nid, a % 2 ^ 64, o⟩ : Edict)]) tail hg2 hc
      rw [hrw, List.append_assoc]
      rfl

theorem edictLoop_flawed (id : RuneId) (acc : List Edict) (tail : List Nat)
    (h : TailFlawed id tail) : edictLoop id acc tail = .ok acc := by
  rcases h with ⟨hne, hlen⟩ | ⟨b, t, a, o, rest, rfl, hn⟩
  · cases tail with
    | nil => simp at hne
    | cons x t1 =>
      cases t1 with
      | nil => rfl
      | cons y t2 =>
        cases t2 with
        | nil => rfl
        | cons z t3 =>
          cases t3 with
          | nil => rfl
          | cons w t4 => simp only [List.length_cons] at hlen; omega
  · simp only [edictLoop]
    rw [hn]

theorem fieldLoop_pairs (ps : List (Nat × Nat) ) :
    ∀ (fields : Fields) (body : List Nat), pairsNoBody ps = true →
      fieldLoop fields (flattenPairs ps ++ 0 :: body) =
        (ps.foldl (fun f p => fieldsInsert f p.1 p.2) fields, edictLoop ⟨0, 0⟩ [] body) := by
  induction ps with
  | nil =>
    intro fields body _
    simp only [flattenPairs, List.nil_append, List.foldl_nil]
    rw [fieldLoop.eq_def]
    simp
  | cons p ps ih =>
    obtain ⟨t, v⟩ := p
    intro fields body hps
    simp only [pairsNoBody, List.all_cons, Bool.and_eq_true, decide_eq_true_eq] at hps
    obtain ⟨ht, hps2⟩ := hps
    simp only [flattenPairs, List.cons_append, fieldLoop, if_neg ht, List.foldl_cons]
    exact ih (fieldsInsert fields t v) body hps2

/-- A parsed script of the canonical runestone instruction shape, with a
field section followed by a `Body` section, reaches the edict loop with the
`Body` integers: the common backbone of the claims about the edict decode. -/
theorem extract_reaches_body (payload : List Nat) (ps : List (Nat × Nat)) (body : List Nat)
    (hply : integers payload = some (flattenPairs ps ++ 0 :: body))
    (hps : pairsNoBody ps = true) :
    extract_rune_from_script [.op OP_RETURN, .op OP_PUSHNUM_13, .push payload] =
      match edictLoop ⟨0, 0⟩ [] body with
      | .error e => .error e
      | .ok edicts =>
        if edicts.isEmpty then
          match mintTake (ps.foldl (fun f p => fieldsInsert f p.1 p.2) []) with
          | some rid => .ok (.Etching rid)
          | none => .ok .Nothing
        else .ok (.Edicts edicts) := by
  have hpay : gatherPayload [Instr.push payload] = payload := by
    simp [gatherPayload]
  simp only [extract_rune_from_script, if_pos rfl, hpay, hply]
  rw [fieldLoop_pairs ps [] body hps]
  cases edictLoop ⟨0, 0⟩ [] body with
  | error e => rfl
  | ok edicts => rfl

/-- C3: the VarInt codec round-trips — for every `v : u128`, decoding the
bytes written by `encode_to_vec v` yields exactly `(v, n)` where `n` is the
number of bytes written; `decode` inverts `encode_to_vec`. -/
theorem varint_round_trip (v : Nat) (h : v < 2 ^ 128) :
    varint.decode (varint.encode_to_vec v) = some (v, (varint.encode_to_vec v).length) := by
  have h19 : v < 128 ^ 19 := lt_of_lt_of_le h (by norm_num)
  have hcore := varint.decodeCore_encodeGo 19 v [] h19
  rw [List.append_nil] at hcore
  unfold varint.decode varint.encode_to_vec
  rw [hcore]
  show (if v < 2 ^ 128 then some (v, (varint.encodeGo 19 v).length) else none) =
    some (v, (varint.encodeGo 19 v).length)
  exact if_pos h

theorem varint_round_trip_witness :
    300 < 2 ^ 128 ∧
      varint.decode (varint.encode_to_vec 300) = some (300, (varint.encode_to_vec 300).length) :=
  ⟨by norm_num, varint_round_trip 300 (by norm_num)⟩

/-- C5: `delta` and `next` are inverse — for valid rune ids `a ≤ b`
(lexicographically on `(block, tx)`), `a.delta b` succeeds with
`(Δblock, Δtx)`, `a.next Δblock Δtx = some b`, and `Δtx` is relative to
`a.tx` exactly when `Δblock = 0`, otherwise it is `b.tx` directly. -/
theorem runeid_delta_next_inverse (a b : RuneId) (ha : a.Valid) (hb : b.Valid)
    (hle : a.block < b.block ∨ (a.block = b.block ∧ a.tx ≤ b.tx)) :
    ∃ db dt, a.delta b = some (db, dt) ∧ a.next db dt = some b ∧
      dt = (if db = 0 then b.tx - a.tx else b.tx) := by
  obtain ⟨hab, hat, -⟩ := ha
  obtain ⟨hbb, hbt, -⟩ := hb
  by_cases hblk : b.block = a.block
  · have h1 : ¬ b.block < a.block := by omega
    have hle2 : a.tx ≤ b.tx := by
      rcases hle with h | ⟨-, h⟩
      · omega
      · exact h
    have h0 : b.block - a.block = 0 := by omega
    refine ⟨0, b.tx - a.tx, ?_, ?_, by simp⟩
    · unfold RuneId.delta
      rw [if_neg h1]
      have h2 : ¬ b.tx < a.tx := by omega
      simp [h0, h2]
    · unfold RuneId.next
      have e1 : (0 : Nat) < 2 ^ 64 := by norm_num
      have e2 : a.block + 0 < 2 ^ 64 := by omega
      have e3 : b.tx - a.tx < 2 ^ 32 := by omega
      have e4 : a.tx + (b.tx - a.tx) < 2 ^ 32 := by omega
      rw [if_pos e1, if_pos e2, if_pos rfl, if_pos e3, if_pos e4]
      have : a.block + 0 = b.block := by omega
      rw [this]
      have : a.tx + (b.tx - a.tx) = b.tx := by omega
      rw [this]
  · have hlt : a.block < b.block := by
      rcases hle with h | ⟨h, -⟩
      · exact h
      · omega
    have h1 : ¬ b.block < a.block := by omega
    have h0 : ¬ b.block - a.block = 0 := by omega
    refine ⟨b.block - a.block, b.tx, ?_, ?_, by simp [h0]⟩
    · unfold RuneId.delta
      rw [if_neg h1]
      simp only [if_neg h0]
    · unfold RuneId.next
      have e1 : b.block - a.block < 2 ^ 64 := by omega
      have e2 : a.block + (b.block - a.block) < 2 ^ 64 := by omega
      rw [if_pos e1, if_pos e2, if_neg h0, if_pos hbt]
      have : a.block + (b.block - a.block) = b.block := by omega
      rw [this]

theorem runeid_delta_next_inverse_witness :
    (RuneId.mk 1 5).Valid ∧ (RuneId.mk 2 3).Valid ∧
      (∃ db dt, (RuneId.mk 1 5).delta (RuneId.mk 2 3) = some (db, dt) ∧
        (RuneId.mk 1 5).next db dt = some (RuneId.mk 2 3) ∧
        dt = (if db = 0 then (RuneId.mk 2 3).tx - (RuneId.mk 1 5).tx else (RuneId.mk 2 3).tx)) :=
  ⟨⟨by norm_num, by norm_num, by simp⟩, ⟨by norm_num, by norm_num, by simp⟩,
    runeid_delta_next_inverse (RuneId.mk 1 5) (RuneId.mk 2 3)
      ⟨by norm_num, by norm_num, by simp⟩ ⟨by norm_num, by norm_num, by simp⟩
      (Or.inl (by norm_num))⟩

/-- C8: a script whose first instruction is not `OP_RETURN` parses to
`NoOpReturn`; a script whose first instruction is `OP_RETURN` but whose
second is not `OP_PUSHNUM_13` parses to `NoMagicNumber`; in neither case is
an edict list returned. -/
theorem parse_rejects_non_runestone (script : List Instr) :
    (script.head? ≠ some (.op OP_RETURN) →
        extract_rune_from_script script = .error .NoOpReturn) ∧
    (∀ rest, script = .op OP_RETURN :: rest → rest.head? ≠ some (.op OP_PUSHNUM_13) →
        extract_rune_from_script script = .error .NoMagicNumber) := by
  constructor
  · intro h
    cases script with
    | nil => rfl
    | cons i1 rest =>
      simp only [List.head?_cons, ne_eq, Option.some.injEq] at h
      simp only [extract_rune_from_script, if_neg h]
  · intro rest hs h
    subst hs
    cases rest with
    | nil => rfl
    | cons i2 rest2 =>
      simp only [List.head?_cons, ne_eq, Option.some.injEq] at h
      simp [extract_rune_from_script, h]

theorem parse_rejects_non_runestone_witness :
    extract_rune_from_script [.op 0] = .error .NoOpReturn ∧
      extract_rune_from_script [.op OP_RETURN, .op 0] = .error .NoMagicNumber :=
  ⟨(parse_rejects_non_runestone [.op 0]).1 (by decide),
    (parse_rejects_non_runestone [.op OP_RETURN, .op 0]).2 [.op 0] rfl (by decide)⟩

theorem edictsOf_not_empty {id : RuneId} {gs : List (Nat × Nat × Nat × Nat)}
    (hg : groupsGood id gs = true) (hne : gs ≠ []) :
    (edictsOf id gs).isEmpty = false := by
  cases gs with
  | nil => simp at hne
  | cons g gs =>
    obtain ⟨b, t, a, o⟩ := g
    simp only [groupsGood] at hg
    cases hn : RuneId.next id b t with
    | none => rw [hn] at hg; simp at hg
    | some nid =>
      simp only [edictsOf]
      rw [hn]
      rfl

/-- C7: best-effort Body decode — when the Body section consists of good
groups followed by a flawed trailer (an incomplete group, or a group whose
rune-id delta addition overflows), the parser stops at the flaw but keeps
every edict decoded before it, returning `Rune::Edicts` with the partial
list (not an error) whenever at least one edict was decoded. -/
theorem parse_body_best_effort (payload : List Nat) (ps : List (Nat × Nat))
    (gs : List (Nat × Nat × Nat × Nat)) (tail : List Nat) (idEnd : RuneId)
    (hply : integers payload = some (flattenPairs ps ++ 0 :: (flattenGroups gs ++ tail)))
    (hps : pairsNoBody ps = true)
    (hg : groupsGood ⟨0, 0⟩ gs = true)
    (hc : chainIds ⟨0, 0⟩ gs = some idEnd)
    (hflaw : TailFlawed idEnd tail)
    (hne : gs ≠ []) :
    extract_rune_from_script [.op OP_RETURN, .op OP_PUSHNUM_13, .push payload] =
      .ok (.Edicts (edictsOf ⟨0, 0⟩ gs)) := by
  rw [extract_reaches_body payload ps (flattenGroups gs ++ tail) hply hps]
  rw [edictLoop_flatten gs ⟨0, 0⟩ idEnd [] tail hg hc]
  rw [edictLoop_flawed idEnd (([] : List Edict) ++ edictsOf ⟨0, 0⟩ gs) tail hflaw]
  simp [edictsOf_not_empty hg hne]

theorem parse_body_best_effort_witness :
    extract_rune_from_script [.op OP_RETURN, .op OP_PUSHNUM_13, .push [0, 1, 1, 5, 0, 7]] =
      .ok (.Edicts (edictsOf ⟨0, 0⟩ [(1, 1, 5, 0)])) :=
  parse_body_best_effort [0, 1, 1, 5, 0, 7] [] [(1, 1, 5, 0)] [7] ⟨1, 1⟩
    (by decide) rfl (by decide) (by decide) (Or.inl (by decide)) (by decide)

/-- C10: an out-of-range edict output index aborts the whole parse — when
the Body loop reaches a complete group whose rune-id delta is valid but
whose fourth integer exceeds `u32::MAX`, `extract_rune_from_script` returns
`Err(U128Tou32)` and every edict decoded before that group is discarded. -/
theorem parse_output_overflow_aborts (payload : List Nat) (ps : List (Nat × Nat))
    (gs : List (Nat × Nat × Nat × Nat)) (b t a o : Nat) (rest : List Nat)
    (idEnd nid : RuneId)
    (hply : integers payload =
      some (flattenPairs ps ++ 0 :: (flattenGroups gs ++ (b :: t :: a :: o :: rest))))
    (hps : pairsNoBody ps = true)
    (hg : groupsGood ⟨0, 0⟩ gs = true)
    (hc : chainIds ⟨0, 0⟩ gs = some idEnd)
    (hn : RuneId.next idEnd b t = some nid)
    (ho : ¬ o < 2 ^ 32) :
    extract_rune_from_script [.op OP_RETURN, .op OP_PUSHNUM_13, .push payload] =
      .error .U128Tou32 := by
  rw [extract_reaches_body payload ps (flattenGroups gs ++ (b :: t :: a :: o :: rest)) hply hps]
  rw [edictLoop_flatten gs ⟨0, 0⟩ idEnd [] (b :: t :: a :: o :: rest) hg hc]
  simp only [edictLoop]
  rw [hn]
  have ho4 : ¬ o < 4294967296 := by omega
  simp [ho4]

theorem parse_output_overflow_aborts_witness :
    extract_rune_from_script [.op OP_RETURN, .op OP_PUSHNUM_13,
        .push [0, 1, 1, 5, 0, 0, 1, 7, 128, 128, 128, 128, 16]] =
      .error .U128Tou32 :=
  parse_output_overflow_aborts [0, 1, 1, 5, 0, 0, 1, 7, 128, 128, 128, 128, 16]
    [] [(1, 1, 5, 0)] 0 1 7 (2 ^ 32) [] ⟨1, 1⟩ ⟨1, 2⟩
    (by decide) rfl (by decide) (by decide) (by decide) (by decide)

/-- C6 counterexample: the FFI `Edict` stores its amount as a `u64` and the
parser narrows the decoded `u128` amount with an `as u64` cast — a Body
group carrying the amount `2 ^ 64` parses to an edict whose `amount` field
is `0`, not the decoded integer `2 ^ 64`, refuting the claim that the
decoded `u128` amount is preserved. -/
theorem parse_amount_preserved_cex :
    extract_rune_from_script [.op OP_RETURN, .op OP_PUSHNUM_13,
        .push [0, 1, 1, 128, 128, 128, 128, 128, 128, 128, 128, 128, 2, 0]] =
      .ok (.Edicts [{ id := ⟨1, 1⟩, amount := 0, output := 0 }]) ∧
    integers [0, 1, 1, 128, 128, 128, 128, 128, 128, 128, 128, 128, 2, 0] =
      some [0, 1, 1, 2 ^ 64, 0] ∧
    (0 : Nat) ≠ 2 ^ 64 := by
  refine ⟨rfl, by decide, by decide⟩

/-- C6 amended: for a Body section holding one complete group with a valid
rune-id delta and an in-range output index, the parsed edict carries the
decoded amount reduced `% 2 ^ 64` (the `as u64` cast), which equals the
decoded `u128` amount exactly when the latter is below `2 ^ 64`. -/
theorem parse_amount_mod_u64 (payload : List Nat) (b t a o : Nat) (nid : RuneId)
    (hply : integers payload = some [0, b, t, a, o])
    (hn : RuneId.next ⟨0, 0⟩ b t = some nid) (ho : o < 2 ^ 32) :
    extract_rune_from_script [.op OP_RETURN, .op OP_PUSHNUM_13, .push payload] =
      .ok (.Edicts [{ id := nid, amount := a % 2 ^ 64, output := o }]) := by
  have hply2 : integers payload = some (flattenPairs [] ++ 0 :: [b, t, a, o]) := hply
  rw [extract_reaches_body payload [] [b, t, a, o] hply2 rfl]
  simp only [edictLoop]
  rw [hn]
  have ho4 : o < 4294967296 := by omega
  simp [ho4]

theorem parse_amount_mod_u64_witness :
    extract_rune_from_script [.op OP_RETURN, .op OP_PUSHNUM_13, .push [0, 1, 1, 5, 0]] =
      .ok (.Edicts [{ id := ⟨1, 1⟩, amount := 5 % 2 ^ 64, output := 0 }]) :=
  parse_amount_mod_u64 [0, 1, 1, 5, 0] 1 1 5 0 ⟨1, 1⟩ (by decide) (by decide) (by decide)

/-! ## Bitcoin primitives

A concrete model of the slice of the wrapped bitcoin library the builders
use: scripts as byte lists, script-kind predicates, the dust-threshold
formula, transaction serialized sizes / weight / vsize, and fee-rate
arithmetic (rates in sat/kwu), each mirroring rust-bitcoin. -/

/-- A script, as its byte list. -/
abbrev Script := List Nat

/-- An address, reduced to the scriptPubKey its `script_pubkey()` yields
(the only way the builders use addresses). -/
structure Address where
  spk : Script
deriving DecidableEq, Repr

structure BWitness where
  items : List (List Nat)
deriving DecidableEq, Repr

structure OutPoint where
  txid : Nat
  vout : Nat
deriving DecidableEq, Repr

/-- `OutPoint::null()`. -/
def OutPoint.null : OutPoint := ⟨0, 4294967295⟩

/-- `Sequence::ENABLE_RBF_NO_LOCKTIME` (0xFFFFFFFD). -/
def ENABLE_RBF_NO_LOCKTIME : Nat := 4294967293

structure TxIn where
  previous_output : OutPoint
  script_sig : Script
  sequence : Nat
  witness : BWitness
deriving DecidableEq, Repr

structure TxOut where
  value : Nat
  script_pubkey : Script
deriving DecidableEq, Repr

structure Transaction where
  version : Nat
  lock_time : Nat
  input : List TxIn
  output : List TxOut
deriving DecidableEq, Repr

/-- The per-input PSBT record, restricted to the fields the builders set. -/
structure PsbtInput where
  witness_utxo : Option TxOut
  final_script_sig : Option Script
  final_script_witness : Option BWitness
deriving DecidableEq, Repr

/-- A PSBT: the unsigned transaction, the per-input records, and the number
of (all-default) per-output records. -/
structure Psbt where
  unsigned_tx : Transaction
  inputs : List PsbtInput
  outputs_len : Nat
deriving DecidableEq, Repr

/-- The wallet UTXO record (`LocalOutput`), restricted to the fields the
builders read. -/
structure LocalOutput where
  outpoint : OutPoint
  txout : TxOut
deriving DecidableEq, Repr

/-- Serialized size of a bitcoin compact-size integer. -/
def compactSizeLen (n : Nat) : Nat :=
  if n < 253 then 1 else if n < 2 ^ 16 then 3 else if n < 2 ^ 32 then 5 else 9

/-- rust-bitcoin `Script::is_op_return`. -/
def is_op_return (s : Script) : Bool := s.head? = some 106

/-- rust-bitcoin `Script::is_p2sh`: `OP_HASH160 <20 bytes> OP_EQUAL`. -/
def is_p2sh (s : Script) : Bool :=
  s.length = 23 && s.head? = some 169 && s.get? 1 = some 20 && s.getLast? = some 135

/-- rust-bitcoin `Script::is_p2wsh`: version-0 32-byte witness program. -/
def is_p2wsh (s : Script) : Bool :=
  s.length = 34 && s.head? = some 0 && s.get? 1 = some 32

/-- rust-bitcoin `Script::is_p2wpkh`: version-0 20-byte witness program. -/
def is_p2wpkh (s : Script) : Bool :=
  s.length = 22 && s.head? = some 0 && s.get? 1 = some 20

/-- rust-bitcoin `Script::is_p2tr`: version-1 32-byte witness program. -/
def is_p2tr (s : Script) : Bool :=
  s.length = 34 && s.head? = some 81 && s.get? 1 = some 32

/-- rust-bitcoin `Script::is_witness_program`. -/
def is_witness_program (s : Script) : Bool :=
  4 ≤ s.length && s.length ≤ 42 &&
    (s.head? = some 0 || ((s.head?.getD 0) ≥ 81 && (s.head?.getD 0) ≤ 96)) &&
    s.get? 1 = some (s.length - 2)

/-- rust-bitcoin `Script::to_p2sh`: `OP_HASH160 <hash160> OP_EQUAL`.  The
hash bytes are modelled as zeros; only the script's length (23) and kind
enter any computation downstream. -/
def to_p2sh (_ : Script) : Script := 169 :: 20 :: (List.replicate 20 0 ++ [135])

/-- rust-bitcoin `Script::to_p2wsh`: `OP_0 <sha256>`; hash bytes modelled as
zeros, only the length (34) matters downstream. -/
def to_p2wsh (_ : Script) : Script := 0 :: 32 :: List.replicate 32 0

/-- rust-bitcoin `Script::minimal_non_dust` (dust relay fee 3000 sat/kvB):
zero for OP_RETURN outputs, otherwise `3000 * (spend_cost + output_size) / 1000`
with spend cost 67 for witness programs and 148 otherwise. -/
def minimal_non_dust (s : Script) : Nat :=
  if is_op_return s then 0
  else if is_witness_program s then
    3000 * ((32 + 4 + 1 + 26 + 4) + 8 + compactSizeLen s.length + s.length) / 1000
  else
    3000 * ((32 + 4 + 1 + 107 + 4) + 8 + compactSizeLen s.length + s.length) / 1000

/-- Serialized size of a `TxIn` without witness data. -/
def txInBaseSize (i : TxIn) : Nat :=
  36 + compactSizeLen i.script_sig.length + i.script_sig.length + 4

/-- Serialized size of a `TxOut`. -/
def txOutSize (o : TxOut) : Nat :=
  8 + compactSizeLen o.script_pubkey.length + o.script_pubkey.length

/-- Serialized size of one input's witness stack. -/
def witnessSize (w : BWitness) : Nat :=
  compactSizeLen w.items.length +
    (w.items.map (fun it => compactSizeLen it.length + it.length)).sum

/-- rust-bitcoin `Transaction::base_size`: the non-witness serialization. -/
def baseSize (t : Transaction) : Nat :=
  4 + compactSizeLen t.input.length + (t.input.map txInBaseSize).sum +
    compactSizeLen t.output.length + (t.output.map txOutSize).sum + 4

def hasWitness (t : Transaction) : Bool :=
  t.input.any (fun i => !i.witness.items.isEmpty)

/-- rust-bitcoin `Transaction::total_size`: segwit serialization adds the
marker/flag bytes and every input's witness stack. -/
def totalSize (t : Transaction) : Nat :=
  baseSize t +
    (if hasWitness t then 2 + (t.input.map (fun i => witnessSize i.witness)).sum else 0)

/-- rust-bitcoin `Transaction::weight` = `3 * base_size + total_size`. -/
def Transaction.wu (t : Transaction) : Nat := 3 * baseSize t + totalSize t

/-- rust-bitcoin `Transaction::vsize` = `ceil(weight / 4)`. -/
def Transaction.vb (t : Transaction) : Nat := (t.wu + 3) / 4

/-- rust-bitcoin `FeeRate::fee_wu` for a rate in sat/kwu:
`ceil(rate * weight / 1000)` (the `unwrap` of the u64 overflow check is
modelled total, `Nat` does not overflow). -/
def fee_wu (rate wu : Nat) : Nat := (rate * wu + 999) / 1000

/-- rust-bitcoin `FeeRate::fee_vb` = `fee_wu (4 * vb)`. -/
def fee_vb (rate vb : Nat) : Nat := fee_wu rate (4 * vb)

/-! ## DummyTransaction (ordinal/dummy_transaction.rs) -/

def SCHNORR_SIGNATURE_SIZE : Nat := 64

structure DummyTransaction where
  tx : Transaction
deriving DecidableEq, Repr

/-- `DummyTransaction::new()`: version 2, no locktime, no inputs/outputs. -/
def DummyTransaction.new : DummyTransaction := ⟨⟨2, 0, [], []⟩⟩

/-- `DummyTransaction::append_input`: a missing signature defaults to
`to_p2sh`/`to_p2wsh` for P2SH/P2WSH and the empty script otherwise; a
missing witness defaults to one 64-byte Schnorr placeholder for P2TR, one
105-byte placeholder for P2WPKH, and the empty witness otherwise. -/
def DummyTransaction.append_input (d : DummyTransaction) (script_pubkey : Script)
    (sig : Option Script) (wit : Option BWitness) : DummyTransaction :=
  let sig := sig.getD
    (if is_p2sh script_pubkey then to_p2sh script_pubkey
     else if is_p2wsh script_pubkey then to_p2wsh script_pubkey
     else [])
  let wit := wit.getD
    (if is_p2tr script_pubkey then ⟨[List.replicate SCHNORR_SIGNATURE_SIZE 0]⟩
     else if is_p2wpkh script_pubkey then ⟨[List.replicate 105 0]⟩
     else ⟨[]⟩)
  ⟨{ d.tx with input := d.tx.input ++
      [{ previous_output := OutPoint.null, script_sig := sig,
         sequence := ENABLE_RBF_NO_LOCKTIME, witness := wit }] }⟩

/-- `DummyTransaction::append_output`: a zero-value output. -/
def DummyTransaction.append_output (d : DummyTransaction) (script_pubkey : Script) :
    DummyTransaction :=
  ⟨{ d.tx with output := d.tx.output ++ [{ value := 0, script_pubkey := script_pubkey }] }⟩

def DummyTransaction.weight (d : DummyTransaction) : Nat := d.tx.wu

def DummyTransaction.vsize (d : DummyTransaction) : Nat := d.tx.vb

/-! ## Snipe PSBT builders (ordinal/snipe.rs) -/

inductive SnipeError
  | UtxoNotEnough
  | ApiError
  | U128Parse
  | MissingDummyUtxo
deriving DecidableEq, Repr

/-- Accumulator of the per-victim loop shared by both snipe builders:
the stripped unsigned inputs, the pre-solved PSBT input records, the
victim outputs, the running amounts, and the mirrored dummy transaction. -/
structure VictimAcc where
  inputs : List TxIn
  signed_psbt_inputs : List PsbtInput
  inputs_amount : Nat
  outputs : List TxOut
  outputs_amount : Nat
  dummy : DummyTransaction
deriving DecidableEq, Repr

/-- One iteration of the `for (txin, prevout, txout) in snipe_utxo_pairs`
loop: push the stripped `TxIn` (sequence preserved), mirror the real
script_sig/witness into the dummy, record the pre-solved PSBT input, push
the desired output, and accumulate both amounts. -/
def victimStep (st : VictimAcc) (p : TxIn × TxOut × TxOut) : VictimAcc :=
  let txin := p.1
  let prevout := p.2.1
  let txout := p.2.2
  { inputs := st.inputs ++
      [{ previous_output := txin.previous_output, script_sig := [],
         sequence := txin.sequence, witness := ⟨[]⟩ }]
    signed_psbt_inputs := st.signed_psbt_inputs ++
      [{ witness_utxo := some ⟨prevout.value, prevout.script_pubkey⟩,
         final_script_sig := some txin.script_sig,
         final_script_witness := some txin.witness }]
    inputs_amount := st.inputs_amount + prevout.value
    outputs := st.outputs ++ [txout]
    outputs_amount := st.outputs_amount + txout.value
    dummy := (st.dummy.append_input prevout.script_pubkey
        (some txin.script_sig) (some txin.witness)).append_output txout.script_pubkey }

inductive InnerRes
  | finalize (unfilled extra_network_fee : Nat)
  | next (extra_network_fee : Nat)
deriving DecidableEq, Repr

/-- The inner fee-bump loop of both snipe builders: while
`amount.checked_sub(network_fee + need_amount + extra_network_fee)` is
`Some(unfilled)` — modelled by the first `if` with `Nat` subtraction —
break to the next UTXO when `unfilled` is below the dust threshold,
finalize when `network_fee + extra_network_fee > min_fee`, and otherwise
bump `extra_network_fee` by one satoshi and retry; a failing `checked_sub`
continues the outer loop.  Both the dust break and the `checked_sub`
failure resume the outer loop with the current `extra_network_fee`
(`InnerRes.next`).  The structural `fuel` only bounds the iteration count:
each pass either returns or increments `extra_network_fee`, and once
`extra_network_fee` exceeds `amount` the `checked_sub` guard fails, so the
loop runs at most `amount + 2 - extra_network_fee` times and the callers'
fuel of `amount + 2` is never exhausted (`innerLoop_fuel_stable`). -/
def innerLoop (fuel amount network_fee need_amount min_fee dust extra_network_fee : Nat) :
    InnerRes :=
  match fuel with
  | 0 => .next extra_network_fee
  | fuel + 1 =>
    if amount < network_fee + need_amount + extra_network_fee then .next extra_network_fee
    else if amount - (network_fee + need_amount + extra_network_fee) < dust then
      .next extra_network_fee
    else if min_fee < network_fee + extra_network_fee then
      .finalize (amount - (network_fee + need_amount + extra_network_fee)) extra_network_fee
    else innerLoop fuel amount network_fee need_amount min_fee dust (extra_network_fee + 1)

theorem innerLoop_fuel_stable (amount nf need min_fee dust : Nat) :
    ∀ fuel enf, amount + 1 ≤ enf + fuel →
      innerLoop (fuel + 1) amount nf need min_fee dust enf =
        innerLoop fuel amount nf need min_fee dust enf := by
  intro fuel
  induction fuel with
  | zero =>
    intro enf h
    have h1 : amount < nf + need + enf := by omega
    simp [innerLoop, h1]
  | succ fuel ih =>
    intro enf h
    by_cases h1 : amount < nf + need + enf
    · simp [innerLoop, h1]
    · by_cases h2 : amount - (nf + need + enf) < dust
      · simp [innerLoop, h1, h2]
      · by_cases h3 : min_fee < nf + enf
        · simp [innerLoop, h1, h2, h3]
        · simp only [innerLoop, if_neg h1, if_neg h2, if_neg h3]
          exact ih (enf + 1) (by omega)

theorem innerLoop_finalize {fuel amount nf need min_fee dust enf u e : Nat}
    (h : innerLoop fuel amount nf need min_fee dust enf = .finalize u e) :
    min_fee < nf + e ∧ dust ≤ u ∧ nf + need + e ≤ amount ∧ u = amount - (nf + need + e) := by
  induction fuel generalizing enf with
  | zero => simp [innerLoop] at h
  | succ fuel ih =>
    simp only [innerLoop] at h
    by_cases h1 : amount < nf + need + enf
    · rw [if_pos h1] at h
      simp at h
    · rw [if_neg h1] at h
      by_cases h2 : amount - (nf + need + enf) < dust
      · rw [if_pos h2] at h
        simp at h
      · rw [if_neg h2] at h
        by_cases h3 : min_fee < nf + enf
        · rw [if_pos h3] at h
          simp only [InnerRes.finalize.injEq] at h
          obtain ⟨hu, he⟩ := h
          subst hu
          subst he
          exact ⟨h3, by omega, by omega, rfl⟩
        · rw [if_neg h3] at h
          exact ih h

/-- The state threaded through the cardinal-UTXO selection loop. -/
structure SnipeLoopSt where
  tx_input : List TxIn
  psbt_inputs : List PsbtInput
  dummy : DummyTransaction
  amount : Nat
  extra_network_fee : Nat
  init : Bool
deriving DecidableEq, Repr

inductive SnipeLoopRes
  | success (tx_input : List TxIn) (psbt_inputs : List PsbtInput)
      (unfilled network_fee extra_network_fee : Nat)
  | notEnough
deriving DecidableEq, Repr

/-- The `'outer: for utxo in cardinal_utxos` loop of `build_snipe_rune_psbt`:
the first funding input is inserted at index 0 (of both the unsigned
transaction and the PSBT input list), later ones are appended; each
iteration mirrors a placeholder-signed input into the dummy, recomputes
`network_fee = fee_rate.fee_wu(dummy.weight())`, and runs the inner loop
against the dust threshold of `pay_addr`'s scriptPubKey.  On success it
also reports the finalizing `network_fee`/`extra_network_fee` pair.
Falling off the list means `ok` remained false (`UtxoNotEnough`). -/
def snipeRuneLoop (pay_addr : Address) (fee_rate min_fee need_amount : Nat) :
    SnipeLoopSt → List LocalOutput → SnipeLoopRes
  | _, [] => .notEnough
  | st, utxo :: rest =>
    let amount := st.amount + utxo.txout.value
    let newIn : TxIn :=
      { previous_output := utxo.outpoint, script_sig := [],
        sequence := ENABLE_RBF_NO_LOCKTIME, witness := ⟨[]⟩ }
    let newPsbtIn : PsbtInput :=
      { witness_utxo := some ⟨utxo.txout.value, pay_addr.spk⟩,
        final_script_sig := none, final_script_witness := none }
    let st1 : SnipeLoopSt :=
      if st.init = false then
        { st with tx_input := newIn :: st.tx_input,
                  psbt_inputs := newPsbtIn :: st.psbt_inputs, init := true, amount := amount }
      else
        { st with tx_input := st.tx_input ++ [newIn],
                  psbt_inputs := st.psbt_inputs ++ [newPsbtIn], amount := amount }
    let dummy := st1.dummy.append_input pay_addr.spk none none
    let network_fee := fee_wu fee_rate dummy.weight
    match innerLoop (amount + 2) amount network_fee need_amount min_fee
        (minimal_non_dust pay_addr.spk) st.extra_network_fee with
    | .finalize unfilled enf =>
      .success st1.tx_input st1.psbt_inputs unfilled network_fee enf
    | .next enf =>
      snipeRuneLoop pay_addr fee_rate min_fee need_amount
        { st1 with dummy := dummy, extra_network_fee := enf } rest

/-- `build_snipe_rune_psbt`, with the finalizing
`(network_fee, extra_network_fee)` pair kept alongside the PSBT.  The outer
`Option` models a Rust panic: `need_amount = outputs_amount - inputs_amount`
is an unchecked `Amount` subtraction that panics when the victims' prevouts
exceed their desired outputs. -/
def build_snipe_rune_core (snipe_utxo_pairs : List (TxIn × TxOut × TxOut))
    (cardinal_utxos : List LocalOutput) (pay_addr rev_addr : Address)
    (min_fee fee_rate : Nat) : Option (Except SnipeError (Psbt × Nat × Nat)) :=
  let pre := snipe_utxo_pairs.foldl victimStep ⟨[], [], 0, [], 0, DummyTransaction.new⟩
  let dummy := pre.dummy.append_output rev_addr.spk
  if pre.inputs_amount ≤ pre.outputs_amount then
    let need_amount := pre.outputs_amount - pre.inputs_amount
    match snipeRuneLoop pay_addr fee_rate min_fee need_amount
        ⟨pre.inputs, pre.signed_psbt_inputs, dummy, 0, 0, false⟩ cardinal_utxos with
    | .notEnough => some (.error .UtxoNotEnough)
    | .success tx_input psbt_inputs unfilled network_fee enf =>
      some (.ok
        (⟨⟨2, 0, tx_input, ⟨unfilled, rev_addr.spk⟩ :: pre.outputs⟩,
          psbt_inputs, pre.outputs.length + 1⟩,
         network_fee, enf))
  else none

def build_snipe_rune_psbt (snipe_utxo_pairs : List (TxIn × TxOut × TxOut))
    (cardinal_utxos : List LocalOutput) (pay_addr rev_addr : Address)
    (min_fee fee_rate : Nat) : Option (Except SnipeError Psbt) :=
  (build_snipe_rune_core snipe_utxo_pairs cardinal_utxos pay_addr rev_addr
      min_fee fee_rate).map (fun r => r.map (fun x => x.1))

/-- The cardinal-UTXO loop of `build_snipe_inscription_psbt`: identical to
the rune variant except every funding input is appended (no index-0
insertion) and the fee is `fee_rate.fee_vb(dummy.vsize())`. -/
def snipeInscriptionLoop (pay_addr : Address) (fee_rate min_fee need_amount : Nat) :
    SnipeLoopSt → List LocalOutput → SnipeLoopRes
  | _, [] => .notEnough
  | st, utxo :: rest =>
    let amount := st.amount + utxo.txout.value
    let newIn : TxIn :=
      { previous_output := utxo.outpoint, script_sig := [],
        sequence := ENABLE_RBF_NO_LOCKTIME, witness := ⟨[]⟩ }
    let newPsbtIn : PsbtInput :=
      { witness_utxo := some ⟨utxo.txout.value, pay_addr.spk⟩,
        final_script_sig := none, final_script_witness := none }
    let st1 : SnipeLoopSt :=
      { st with tx_input := st.tx_input ++ [newIn],
                psbt_inputs := st.psbt_inputs ++ [newPsbtIn], amount := amount }
    let dummy := st1.dummy.append_input pay_addr.spk none none
    let network_fee := fee_vb fee_rate dummy.vsize
    match innerLoop (amount + 2) amount network_fee need_amount min_fee
        (minimal_non_dust pay_addr.spk) st.extra_network_fee with
    | .finalize unfilled enf =>
      .success st1.tx_input st1.psbt_inputs unfilled network_fee enf
    | .next enf =>
      snipeInscriptionLoop pay_addr fee_rate min_fee need_amount
        { st1 with dummy := dummy, extra_network_fee := enf } rest

/-- `build_snipe_inscription_psbt` with the finalizing fee pair kept: fail
fast with `MissingDummyUtxo` when `dummy_utxos` is empty, seed the input
lists and the dummy with the anchor UTXO, run the victim loop, insert the
index-0 placeholder output, and select cardinal UTXOs.  The outer `Option`
again models the `need_amount` subtraction panic. -/
def build_snipe_inscription_core (snipe_utxo_pairs : List (TxIn × TxOut × TxOut))
    (cardinal_utxos dummy_utxos : List LocalOutput) (pay_addr rev_addr : Address)
    (min_fee fee_rate : Nat) : Option (Except SnipeError (Psbt × Nat × Nat)) :=
  match dummy_utxos with
  | [] => some (.error .MissingDummyUtxo)
  | dummy_utxo :: _ =>
    let st0 : VictimAcc :=
      { inputs :=
          [{ previous_output := dummy_utxo.outpoint, script_sig := [],
             sequence := ENABLE_RBF_NO_LOCKTIME, witness := ⟨[]⟩ }]
        signed_psbt_inputs :=
          [{ witness_utxo := some ⟨dummy_utxo.txout.value, dummy_utxo.txout.script_pubkey⟩,
             final_script_sig := none, final_script_witness := none }]
        inputs_amount := dummy_utxo.txout.value
        outputs := []
        outputs_amount := 0
        dummy := DummyTransaction.new.append_input dummy_utxo.txout.script_pubkey none none }
    let pre := snipe_utxo_pairs.foldl victimStep st0
    let dummy := pre.dummy.append_output rev_addr.spk
    if pre.inputs_amount ≤ pre.outputs_amount then
      let need_amount := pre.outputs_amount - pre.inputs_amount
      match snipeInscriptionLoop pay_addr fee_rate min_fee need_amount
          ⟨pre.inputs, pre.signed_psbt_inputs, dummy, 0, 0, true⟩ cardinal_utxos with
      | .notEnough => some (.error .UtxoNotEnough)
      | .success tx_input psbt_inputs unfilled network_fee enf =>
        some (.ok
          (⟨⟨2, 0, tx_input, ⟨unfilled, rev_addr.spk⟩ :: pre.outputs⟩,
            psbt_inputs, pre.outputs.length + 1⟩,
           network_fee, enf))
    else none

def build_snipe_inscription_psbt (snipe_utxo_pairs : List (TxIn × TxOut × TxOut))
    (cardinal_utxos dummy_utxos : List LocalOutput) (pay_addr rev_addr : Address)
    (min_fee fee_rate : Nat) : Option (Except SnipeError Psbt) :=
  (build_snipe_inscription_core snipe_utxo_pairs cardinal_utxos dummy_utxos pay_addr
      rev_addr min_fee fee_rate).map (fun r => r.map (fun x => x.1))

/-- Whether a builder call returned `Ok` (as opposed to an error or a
modelled panic). -/
def builtOk (r : Option (Except SnipeError Psbt)) : Bool :=
  match r with
  | some (.ok _) => true
  | _ => false

/-- The value of `output[0]` (the merged aggregation/change output) of a
successfully built PSBT. -/
def changeValue (r : Option (Except SnipeError Psbt)) : Option Nat :=
  match r with
  | some (.ok p) => (p.unsigned_tx.output.head?).map TxOut.value
  | _ => none

theorem snipeRuneLoop_success {pay : Address} {fee_rate min_fee need : Nat}
    {st : SnipeLoopSt} {l : List LocalOutput} {ti : List TxIn} {pi : List PsbtInput}
    {u nf e : Nat}
    (h : snipeRuneLoop pay fee_rate min_fee need st l = .success ti pi u nf e) :
    min_fee < nf + e ∧ minimal_non_dust pay.spk ≤ u := by
  induction l generalizing st with
  | nil => simp [snipeRuneLoop] at h
  | cons utxo rest ih =>
    simp only [snipeRuneLoop] at h
    split at h
    · rename_i unfilled enf heq
      simp only [SnipeLoopRes.success.injEq] at h
      obtain ⟨-, -, hu, hnf, he⟩ := h
      subst hu
      subst hnf
      subst he
      have hf := innerLoop_finalize heq
      exact ⟨hf.1, hf.2.1⟩
    · exact ih h

theorem snipeInscriptionLoop_success {pay : Address} {fee_rate min_fee need : Nat}
    {st : SnipeLoopSt} {l : List LocalOutput} {ti : List TxIn} {pi : List PsbtInput}
    {u nf e : Nat}
    (h : snipeInscriptionLoop pay fee_rate min_fee need st l = .success ti pi u nf e) :
    min_fee < nf + e ∧ minimal_non_dust pay.spk ≤ u := by
  induction l generalizing st with
  | nil => simp [snipeInscriptionLoop] at h
  | cons utxo rest ih =>
    simp only [snipeInscriptionLoop] at h
    split at h
    · rename_i unfilled enf heq
      simp only [SnipeLoopRes.success.injEq] at h
      obtain ⟨-, -, hu, hnf, he⟩ := h
      subst hu
      subst hnf
      subst he
      have hf := innerLoop_finalize heq
      exact ⟨hf.1, hf.2.1⟩
    · exact ih h

theorem build_snipe_rune_core_ok {pairs : List (TxIn × TxOut × TxOut)}
    {cu : List LocalOutput} {pay rev : Address} {min_fee fee_rate : Nat}
    {psbt : Psbt} {nf enf : Nat}
    (h : build_snipe_rune_core pairs cu pay rev min_fee fee_rate = some (.ok (psbt, nf, enf))) :
    min_fee < nf + enf ∧
      ∃ u, psbt.unsigned_tx.output.head? = some ⟨u, rev.spk⟩ ∧
        minimal_non_dust pay.spk ≤ u := by
  unfold build_snipe_rune_core at h
  simp only [] at h
  split at h
  · split at h
    · simp at h
    · rename_i ti pi u nf2 enf2 heq
      simp only [Option.some.injEq, Except.ok.injEq, Prod.mk.injEq] at h
      obtain ⟨hp, hnf, henf⟩ := h
      subst hnf
      subst henf
      have hs := snipeRuneLoop_success heq
      refine ⟨hs.1, u, ?_, hs.2⟩
      rw [← hp]
      rfl
  · simp at h

theorem build_snipe_inscription_core_ok {pairs : List (TxIn × TxOut × TxOut)}
    {cu du : List LocalOutput} {pay rev : Address} {min_fee fee_rate : Nat}
    {psbt : Psbt} {nf enf : Nat}
    (h : build_snipe_inscription_core pairs cu du pay rev min_fee fee_rate =
      some (.ok (psbt, nf, enf))) :
    min_fee < nf + enf ∧
      ∃ u, psbt.unsigned_tx.output.head? = some ⟨u, rev.spk⟩ ∧
        minimal_non_dust pay.spk ≤ u := by
  unfold build_snipe_inscription_core at h
  split at h
  · simp at h
  · simp only [] at h
    split at h
    · split at h
      · simp at h
      · rename_i ti pi u nf2 enf2 heq
        simp only [Option.some.injEq, Except.ok.injEq, Prod.mk.injEq] at h
        obtain ⟨hp, hnf, henf⟩ := h
        subst hnf
        subst henf
        have hs := snipeInscriptionLoop_success heq
        refine ⟨hs.1, u, ?_, hs.2⟩
        rw [← hp]
        rfl
    · simp at h

theorem builtOk_core {core : Option (Except SnipeError (Psbt × Nat × Nat))}
    (h : builtOk (core.map (fun r => r.map (fun x => x.1))) = true) :
    ∃ psbt nf enf, core = some (.ok (psbt, nf, enf)) := by
  match hc : core with
  | none => simp [builtOk] at h
  | some (.error e) => simp [builtOk, Except.map] at h
  | some (.ok ⟨psbt, nf, enf⟩) => exact ⟨psbt, nf, enf, rfl⟩

/-- C1: the fee-floor guard — whenever either snipe builder (rune or
inscription variant) returns `Ok`, the finalizing iteration had
`network_fee + extra_network_fee > min_fee`: the builder never finalizes a
PSBT while the total fee is at most the caller's `min_fee` floor. -/
theorem snipe_fee_floor :
    (∀ (pairs : List (TxIn × TxOut × TxOut)) (cu : List LocalOutput)
        (pay rev : Address) (min_fee fee_rate : Nat),
      builtOk (build_snipe_rune_psbt pairs cu pay rev min_fee fee_rate) = true →
        ∃ psbt nf enf,
          build_snipe_rune_core pairs cu pay rev min_fee fee_rate =
              some (.ok (psbt, nf, enf)) ∧
            min_fee < nf + enf) ∧
    (∀ (pairs : List (TxIn × TxOut × TxOut)) (cu du : List LocalOutput)
        (pay rev : Address) (min_fee fee_rate : Nat),
      builtOk (build_snipe_inscription_psbt pairs cu du pay rev min_fee fee_rate) = true →
        ∃ psbt nf enf,
          build_snipe_inscription_core pairs cu du pay rev min_fee fee_rate =
              some (.ok (psbt, nf, enf)) ∧
            min_fee < nf + enf) := by
  constructor
  · intro pairs cu pay rev min_fee fee_rate h
    obtain ⟨psbt, nf, enf, hc⟩ := builtOk_core h
    exact ⟨psbt, nf, enf, hc, (build_snipe_rune_core_ok hc).1⟩
  · intro pairs cu du pay rev min_fee fee_rate h
    obtain ⟨psbt, nf, enf, hc⟩ := builtOk_core h
    exact ⟨psbt, nf, enf, hc, (build_snipe_inscription_core_ok hc).1⟩

/-- A concrete P2WPKH scriptPubKey (dust threshold 294 sats). -/
def p2wpkhScript : Script := 0 :: 20 :: List.replicate 20 7

/-- A concrete P2PKH scriptPubKey (dust threshold 546 sats). -/
def p2pkhScript : Script := 118 :: 169 :: 20 :: (List.replicate 20 9 ++ [136, 172])

/-- A concrete P2TR scriptPubKey (dust threshold 330 sats). -/
def p2trScript : Script := 81 :: 32 :: List.replicate 32 3

/-- A concrete pre-solved victim input (65-byte witness item, as a signed
taproot spend would carry). -/
def snipeVictimIn : TxIn := ⟨⟨1, 0⟩, [], 4294967295, ⟨[List.replicate 65 1]⟩⟩

def snipeVictimPrev : TxOut := ⟨1000, p2trScript⟩

def snipeVictimOut : TxOut := ⟨2000, p2trScript⟩

set_option maxRecDepth 40000 in
theorem snipe_fee_floor_witness :
    (∃ psbt nf enf,
        build_snipe_rune_core [] [⟨⟨5, 0⟩, ⟨1000, p2wpkhScript⟩⟩]
            ⟨p2wpkhScript⟩ ⟨p2pkhScript⟩ 400 1000 = some (.ok (psbt, nf, enf)) ∧
          400 < nf + enf) ∧
    (∃ psbt nf enf,
        build_snipe_inscription_core [(snipeVictimIn, snipeVictimPrev, snipeVictimOut)]
            [⟨⟨6, 0⟩, ⟨50000, p2wpkhScript⟩⟩] [⟨⟨7, 0⟩, ⟨600, p2wpkhScript⟩⟩]
            ⟨p2wpkhScript⟩ ⟨p2trScript⟩ 500 1000 = some (.ok (psbt, nf, enf)) ∧
          500 < nf + enf) :=
  ⟨snipe_fee_floor.1 [] [⟨⟨5, 0⟩, ⟨1000, p2wpkhScript⟩⟩]
      ⟨p2wpkhScript⟩ ⟨p2pkhScript⟩ 400 1000 (by decide),
    snipe_fee_floor.2 [(snipeVictimIn, snipeVictimPrev, snipeVictimOut)]
      [⟨⟨6, 0⟩, ⟨50000, p2wpkhScript⟩⟩] [⟨⟨7, 0⟩, ⟨600, p2wpkhScript⟩⟩]
      ⟨p2wpkhScript⟩ ⟨p2trScript⟩ 500 1000 (by decide)⟩

set_option maxRecDepth 40000 in
/-- C2 counterexample: the snipe builders' dust guard compares the change
against the dust threshold of `pay_addr`'s scriptPubKey, not `recv_addr`'s.
With a P2WPKH pay address (dust 294) and a P2PKH receive address
(dust 546), the rune snipe builder finalizes successfully with a change of
500 sats stored in output[0] — below the minimal non-dust value of
`recv_addr`'s script type, refuting the claim as stated. -/
theorem snipe_dust_recv_cex :
    changeValue (build_snipe_rune_psbt [] [⟨⟨5, 0⟩, ⟨949, p2wpkhScript⟩⟩]
        ⟨p2wpkhScript⟩ ⟨p2pkhScript⟩ 400 1000) = some 500 ∧
      500 < minimal_non_dust p2pkhScript :=
  ⟨by decide, by decide⟩

/-- C2 amended: the snipe builders skip any funding level whose change
would fall below the dust threshold of `pay_addr`'s (not `recv_addr`'s)
scriptPubKey: for every input on which either builder returns `Ok`, the
change stored in output[0] (paying `recv_addr`) is at least
`pay_addr.script_pubkey().minimal_non_dust()`; a funding level with change
below that bound is abandoned in favor of the next cardinal UTXO, and
`UtxoNotEnough` is returned when none remains. -/
theorem snipe_dust_floor :
    (∀ (pairs : List (TxIn × TxOut × TxOut)) (cu : List LocalOutput)
        (pay rev : Address) (min_fee fee_rate : Nat),
      builtOk (build_snipe_rune_psbt pairs cu pay rev min_fee fee_rate) = true →
        ∃ psbt u,
          build_snipe_rune_psbt pairs cu pay rev min_fee fee_rate = some (.ok psbt) ∧
            psbt.unsigned_tx.output.head? = some ⟨u, rev.spk⟩ ∧
            minimal_non_dust pay.spk ≤ u) ∧
    (∀ (pairs : List (TxIn × TxOut × TxOut)) (cu du : List LocalOutput)
        (pay rev : Address) (min_fee fee_rate : Nat),
      builtOk (build_snipe_inscription_psbt pairs cu du pay rev min_fee fee_rate) = true →
        ∃ psbt u,
          build_snipe_inscription_psbt pairs cu du pay rev min_fee fee_rate =
              some (.ok psbt) ∧
            psbt.unsigned_tx.output.head? = some ⟨u, rev.spk⟩ ∧
            minimal_non_dust pay.spk ≤ u) := by
  constructor
  · intro pairs cu pay rev min_fee fee_rate h
    obtain ⟨psbt, nf, enf, hc⟩ := builtOk_core h
    obtain ⟨-, u, hhead, hdust⟩ := build_snipe_rune_core_ok hc
    refine ⟨psbt, u, ?_, hhead, hdust⟩
    simp [build_snipe_rune_psbt, hc, Except.map]
  · intro pairs cu du pay rev min_fee fee_rate h
    obtain ⟨psbt, nf, enf, hc⟩ := builtOk_core h
    obtain ⟨-, u, hhead, hdust⟩ := build_snipe_inscription_core_ok hc
    refine ⟨psbt, u, ?_, hhead, hdust⟩
    simp [build_snipe_inscription_psbt, hc, Except.map]

set_option maxRecDepth 40000 in
theorem snipe_dust_floor_witness :
    (∃ psbt u,
        build_snipe_rune_psbt [] [⟨⟨5, 0⟩, ⟨1200, p2wpkhScript⟩⟩]
            ⟨p2wpkhScript⟩ ⟨p2pkhScript⟩ 400 1000 = some (.ok psbt) ∧
          psbt.unsigned_tx.output.head? = some ⟨u, (⟨p2pkhScript⟩ : Address).spk⟩ ∧
          minimal_non_dust (⟨p2wpkhScript⟩ : Address).spk ≤ u) ∧
    (∃ psbt u,
        build_snipe_inscription_psbt [(snipeVictimIn, snipeVictimPrev, snipeVictimOut)]
            [⟨⟨6, 0⟩, ⟨40000, p2wpkhScript⟩⟩] [⟨⟨7, 0⟩, ⟨600, p2wpkhScript⟩⟩]
            ⟨p2wpkhScript⟩ ⟨p2trScript⟩ 500 1000 = some (.ok psbt) ∧
          psbt.unsigned_tx.output.head? = some ⟨u, (⟨p2trScript⟩ : Address).spk⟩ ∧
          minimal_non_dust (⟨p2wpkhScript⟩ : Address).spk ≤ u) :=
  ⟨snipe_dust_floor.1 [] [⟨⟨5, 0⟩, ⟨1200, p2wpkhScript⟩⟩]
      ⟨p2wpkhScript⟩ ⟨p2pkhScript⟩ 400 1000 (by decide),
    snipe_dust_floor.2 [(snipeVictimIn, snipeVictimPrev, snipeVictimOut)]
      [⟨⟨6, 0⟩, ⟨40000, p2wpkhScript⟩⟩] [⟨⟨7, 0⟩, ⟨600, p2wpkhScript⟩⟩]
      ⟨p2wpkhScript⟩ ⟨p2trScript⟩ 500 1000 (by decide)⟩

/-! ## Split PSBT builders (ordinal/snipe.rs) -/

/-- The `ordinals` crate's `Edict`: `{ id: RuneId, amount: u128, output: u32 }`
(unlike the FFI `Edict`, the amount here is a full `u128`). -/
structure OrdEdict where
  id : RuneId
  amount : Nat
  output : Nat
deriving DecidableEq, Repr

/-- Lexicographic order on rune ids, the sort key of `Runestone::encipher`. -/
def edictIdLe (a b : RuneId) : Bool :=
  a.block < b.block || (a.block = b.block && a.tx ≤ b.tx)

def insertEdict (e : OrdEdict) : List OrdEdict → List OrdEdict
  | [] => [e]
  | x :: xs => if edictIdLe e.id x.id then e :: x :: xs else x :: insertEdict e xs

/-- Insertion sort of edicts by rune id. -/
def sortEdicts (l : List OrdEdict) : List OrdEdict := l.foldr insertEdict []

/-- Modelled from the spec: the edict section of a runestone payload — for
each edict (sorted by id), the delta `previous.delta(edict.id).unwrap()`
followed by amount and output, all varint-encoded (§6 script encoding
contract; the external `ordinals` crate's `Runestone::encipher`, which
snipe.rs calls, is not under src/ — the commented-out
`build_edict_script_buf` in rune.rs documents the same procedure).  The
`unwrap` panic on an out-of-order id cannot fire after sorting; it is
modelled as an empty trailer. -/
def edictsPayload (prev : RuneId) : List OrdEdict → List Nat
  | [] => []
  | e :: rest =>
    match RuneId.delta prev e.id with
    | none => []
    | some (db, dt) =>
      varint.encode_to_vec db ++ varint.encode_to_vec dt ++
        varint.encode_to_vec e.amount ++ varint.encode_to_vec e.output ++
        edictsPayload e.id rest

/-- Modelled from the spec: `Runestone::encipher` — `OP_RETURN`
`OP_PUSHNUM_13`, then the payload (`Tag::Body` and the sorted,
delta-encoded edicts) as one data push (payloads built here stay below the
push-size limit, so the chunking degenerates to a single push whose opcode
is the payload length). -/
def runestone_encipher (edicts : List OrdEdict) : Script :=
  let payload := varint.encode_to_vec 0 ++ edictsPayload ⟨0, 0⟩ (sortEdicts edicts)
  106 :: 93 :: payload.length :: payload

/-- The edict list `build_split_rune_psbt` accumulates: one edict per rune
with `output` equal to the rune's iteration index, built only when more
than one rune is present. -/
def split_rune_edicts (runes : List (RuneId × Nat)) : List OrdEdict :=
  if runes.length > 1 then
    runes.enum.map (fun p => { id := p.2.1, amount := p.2.2, output := p.1 })
  else []

/-- The outputs `build_split_rune_psbt` pushes, before the change value is
patched in: one dust-minimal output to `recv_addr` per rune, the runestone
OP_RETURN output when more than one rune is present, and the zero-valued
change output. -/
def split_rune_outputs (runes : List (RuneId × Nat)) (recv change_addr : Address) :
    List TxOut :=
  (runes.map (fun _ => (⟨minimal_non_dust recv.spk, recv.spk⟩ : TxOut))) ++
    (if runes.length > 1 then
        [⟨0, runestone_encipher (split_rune_edicts runes)⟩]
      else []) ++
    [⟨0, change_addr.spk⟩]

/-- The dummy transaction `build_split_rune_psbt` mirrors: its own
(placeholder-signed) input spending the aggregated outpoint, then the same
outputs in the same order. -/
def split_rune_dummy (ordi_addr recv change_addr : Address)
    (runes : List (RuneId × Nat)) : DummyTransaction :=
  (split_rune_outputs runes recv change_addr).foldl
    (fun d o => d.append_output o.script_pubkey)
    (DummyTransaction.new.append_input ordi_addr.spk none none)

/-- `unsigned_tx.output.last_mut().unwrap().value = v`. -/
def setLastValue : List TxOut → Nat → List TxOut
  | [], _ => []
  | [o], v => [⟨v, o.script_pubkey⟩]
  | o :: o2 :: rest, v => o :: setLastValue (o2 :: rest) v

/-- `build_split_rune_psbt`.  `runes` is the iteration sequence of the
`HashMap<RuneId, u128>` argument (Rust's HashMap iteration order is
seeded per map and is not a function of the map's contents).  The `Option`
models the panic of the unchecked `Amount` subtractions
`amount - network_fee - recv_dust * runes_len`; no error path exists
otherwise (the source's `Result` is always `Ok`). -/
def build_split_rune_psbt (ordi_addr : Address) (outpoint : OutPoint) (amount : Nat)
    (runes : List (RuneId × Nat)) (recv change_addr : Address) (fee_rate : Nat) :
    Option Psbt :=
  let outs := split_rune_outputs runes recv change_addr
  let network_fee :=
    fee_vb fee_rate (split_rune_dummy ordi_addr recv change_addr runes).vsize
  if amount < network_fee + minimal_non_dust recv.spk * runes.length then none
  else
    some ⟨⟨2, 0,
        [⟨outpoint, [], ENABLE_RBF_NO_LOCKTIME, ⟨[]⟩⟩],
        setLastValue outs (amount - network_fee - minimal_non_dust recv.spk * runes.length)⟩,
      [⟨some ⟨amount, ordi_addr.spk⟩, none, none⟩],
      outs.length⟩

/-- The outputs `build_split_inscription_psbt` pushes, before the change
value is patched in: the fixed 600-sat output to `change_addr`, one output
per inscription offset carrying the offset as its value, and the
zero-valued change output. -/
def split_inscription_outputs (inscription_offsets : List Nat)
    (recv change_addr : Address) : List TxOut :=
  (⟨600, change_addr.spk⟩ : TxOut) ::
    (inscription_offsets.map (fun o => (⟨o, recv.spk⟩ : TxOut)) ++ [⟨0, change_addr.spk⟩])

def split_inscription_dummy (ordi_addr recv change_addr : Address)
    (inscription_offsets : List Nat) : DummyTransaction :=
  (split_inscription_outputs inscription_offsets recv change_addr).foldl
    (fun d o => d.append_output o.script_pubkey)
    (DummyTransaction.new.append_input ordi_addr.spk none none)

/-- `build_split_inscription_psbt`; the `Option` models the panic of the
unchecked `amount - network_fee - output_amount` subtraction, where
`output_amount = 600 + Σ offsets`. -/
def build_split_inscription_psbt (ordi_addr : Address) (outpoint : OutPoint)
    (amount : Nat) (inscription_offsets : List Nat) (recv change_addr : Address)
    (fee_rate : Nat) : Option Psbt :=
  let outs := split_inscription_outputs inscription_offsets recv change_addr
  let network_fee :=
    fee_vb fee_rate (split_inscription_dummy ordi_addr recv change_addr
      inscription_offsets).vsize
  if amount < network_fee + (600 + inscription_offsets.sum) then none
  else
    some ⟨⟨2, 0,
        [⟨outpoint, [], ENABLE_RBF_NO_LOCKTIME, ⟨[]⟩⟩],
        setLastValue outs (amount - network_fee - (600 + inscription_offsets.sum))⟩,
      [⟨some ⟨amount, ordi_addr.spk⟩, none, none⟩],
      outs.length⟩

theorem setLastValue_dropLast (outs : List TxOut) (v : Nat) :
    (setLastValue outs v).dropLast = outs.dropLast := by
  induction outs with
  | nil => rfl
  | cons o rest ih =>
    cases rest with
    | nil => rfl
    | cons o2 rest2 =>
      simp only [setLastValue]
      cases h2 : setLastValue (o2 :: rest2) v with
      | nil => cases rest2 <;> simp [setLastValue] at h2
      | cons x xs =>
        rw [← h2, List.dropLast_cons_of_ne_nil (by rw [h2]; simp),
          List.dropLast_cons_of_ne_nil (by simp), ih]

theorem setLastValue_getLast (outs : List TxOut) (v : Nat) (h : outs ≠ []) :
    ((setLastValue outs v).map TxOut.value).getLast? = some v := by
  induction outs with
  | nil => simp at h
  | cons o rest ih =>
    cases rest with
    | nil => simp [setLastValue]
    | cons o2 rest2 =>
      have := ih (by simp)
      simp only [setLastValue, List.map_cons]
      rw [List.getLast?_cons]
      cases h2 : setLastValue (o2 :: rest2) v with
      | nil => cases rest2 <;> simp [setLastValue] at h2
      | cons x xs =>
        rw [h2] at this
        simp only [h2, List.map_cons] at this ⊢
        simp [this]

theorem map_value_const_sum (spk : Script) (v : Nat) (runes : List (RuneId × Nat)) :
    ((runes.map (fun _ => (⟨v, spk⟩ : TxOut))).map TxOut.value).sum = v * runes.length := by
  induction runes with
  | nil => simp
  | cons r rest ih =>
    simp only [List.map_cons, List.sum_cons, List.length_cons, ih]
    ring

theorem split_rune_other_sum (runes : List (RuneId × Nat)) (recv change_addr : Address) :
    (((split_rune_outputs runes recv change_addr).dropLast).map TxOut.value).sum =
      minimal_non_dust recv.spk * runes.length := by
  unfold split_rune_outputs
  rw [List.dropLast_concat, List.map_append, List.sum_append, map_value_const_sum]
  by_cases h : runes.length > 1
  · simp [h]
  · simp [h]

theorem split_inscription_other_sum (inscription_offsets : List Nat)
    (recv change_addr : Address) :
    (((split_inscription_outputs inscription_offsets recv change_addr).dropLast).map
        TxOut.value).sum = 600 + inscription_offsets.sum := by
  unfold split_inscription_outputs
  rw [show (⟨600, change_addr.spk⟩ : TxOut) ::
      (inscription_offsets.map (fun o => (⟨o, recv.spk⟩ : TxOut)) ++ [⟨0, change_addr.spk⟩]) =
      ((⟨600, change_addr.spk⟩ : TxOut) ::
        inscription_offsets.map (fun o => (⟨o, recv.spk⟩ : TxOut))) ++ [⟨0, change_addr.spk⟩]
    from rfl]
  rw [List.dropLast_concat, List.map_cons, List.sum_cons]
  congr 1
  induction inscription_offsets with
  | nil => rfl
  | cons o rest ih =>
    simp only [List.map_cons, List.sum_cons]
    rw [ih]

theorem split_rune_outputs_ne_nil (runes : List (RuneId × Nat)) (recv change_addr : Address) :
    split_rune_outputs runes recv change_addr ≠ [] := by
  unfold split_rune_outputs
  simp

theorem split_inscription_outputs_ne_nil (inscription_offsets : List Nat)
    (recv change_addr : Address) :
    split_inscription_outputs inscription_offsets recv change_addr ≠ [] := by
  unfold split_inscription_outputs
  simp

/-- C4: both split builders set the final (change) output's value to
`amount − network_fee − (sum of all other output values)` with
`network_fee = fee_rate × dummy.vsize()`, unconditionally — there is no
dust or insufficiency check: when `amount` does not cover
`network_fee + allocations` the unchecked subtraction panics (modelled
`none`) instead of returning an error, and otherwise the change is the
plain difference, for every `amount`, `fee_rate` and allocation list. -/
theorem split_change_unchecked :
    (∀ (ordi_addr : Address) (outpoint : OutPoint) (amount : Nat)
        (runes : List (RuneId × Nat)) (recv change_addr : Address) (fee_rate : Nat),
      (amount <
          fee_vb fee_rate (split_rune_dummy ordi_addr recv change_addr runes).vsize +
            (((split_rune_outputs runes recv change_addr).dropLast).map TxOut.value).sum →
        build_split_rune_psbt ordi_addr outpoint amount runes recv change_addr fee_rate =
          none) ∧
      (fee_vb fee_rate (split_rune_dummy ordi_addr recv change_addr runes).vsize +
          (((split_rune_outputs runes recv change_addr).dropLast).map TxOut.value).sum ≤
            amount →
        ∃ psbt,
          build_split_rune_psbt ordi_addr outpoint amount runes recv change_addr fee_rate =
              some psbt ∧
            (psbt.unsigned_tx.output.map TxOut.value).getLast? =
              some (amount -
                fee_vb fee_rate (split_rune_dummy ordi_addr recv change_addr runes).vsize -
                ((psbt.unsigned_tx.output.dropLast.map TxOut.value).sum)))) ∧
    (∀ (ordi_addr : Address) (outpoint : OutPoint) (amount : Nat)
        (inscription_offsets : List Nat) (recv change_addr : Address) (fee_rate : Nat),
      (amount <
          fee_vb fee_rate (split_inscription_dummy ordi_addr recv change_addr
              inscription_offsets).vsize +
            (((split_inscription_outputs inscription_offsets recv change_addr).dropLast).map
                TxOut.value).sum →
        build_split_inscription_psbt ordi_addr outpoint amount inscription_offsets recv
            change_addr fee_rate = none) ∧
      (fee_vb fee_rate (split_inscription_dummy ordi_addr recv change_addr
            inscription_offsets).vsize +
          (((split_inscription_outputs inscription_offsets recv change_addr).dropLast).map
              TxOut.value).sum ≤ amount →
        ∃ psbt,
          build_split_inscription_psbt ordi_addr outpoint amount inscription_offsets recv
              change_addr fee_rate = some psbt ∧
            (psbt.unsigned_tx.output.map TxOut.value).getLast? =
              some (amount -
                fee_vb fee_rate (split_inscription_dummy ordi_addr recv change_addr
                    inscription_offsets).vsize -
                ((psbt.unsigned_tx.output.dropLast.map TxOut.value).sum)))) := by
  constructor
  · intro ordi_addr outpoint amount runes recv change_addr fee_rate
    rw [split_rune_other_sum]
    constructor
    · intro h
      unfold build_split_rune_psbt
      simp only []
      rw [if_pos h]
    · intro h
      unfold build_split_rune_psbt
      simp only []
      rw [if_neg (Nat.not_lt.mpr h)]
      refine ⟨_, rfl, ?_⟩
      simp only [setLastValue_dropLast, split_rune_other_sum]
      rw [setLastValue_getLast _ _ (split_rune_outputs_ne_nil runes recv change_addr)]
  · intro ordi_addr outpoint amount inscription_offsets recv change_addr fee_rate
    rw [split_inscription_other_sum]
    constructor
    · intro h
      unfold build_split_inscription_psbt
      simp only []
      rw [if_pos h]
    · intro h
      unfold build_split_inscription_psbt
      simp only []
      rw [if_neg (Nat.not_lt.mpr h)]
      refine ⟨_, rfl, ?_⟩
      simp only [setLastValue_dropLast, split_inscription_other_sum]
      rw [setLastValue_getLast _ _
        (split_inscription_outputs_ne_nil inscription_offsets recv change_addr)]

def c4runes : List (RuneId × Nat) := [(⟨840000, 1⟩, 5), (⟨840000, 2⟩, 7)]

set_option maxRecDepth 40000 in
theorem split_change_unchecked_witness :
    (fee_vb 1000 (split_rune_dummy ⟨p2trScript⟩ ⟨p2wpkhScript⟩ ⟨p2wpkhScript⟩ c4runes).vsize +
        (((split_rune_outputs c4runes ⟨p2wpkhScript⟩ ⟨p2wpkhScript⟩).dropLast).map
            TxOut.value).sum ≤ 100000 ∧
      (∃ psbt,
        build_split_rune_psbt ⟨p2trScript⟩ ⟨9, 0⟩ 100000 c4runes ⟨p2wpkhScript⟩
            ⟨p2wpkhScript⟩ 1000 = some psbt ∧
          (psbt.unsigned_tx.output.map TxOut.value).getLast? =
            some (100000 -
              fee_vb 1000 (split_rune_dummy ⟨p2trScript⟩ ⟨p2wpkhScript⟩ ⟨p2wpkhScript⟩
                  c4runes).vsize -
              ((psbt.unsigned_tx.output.dropLast.map TxOut.value).sum)))) ∧
    (fee_vb 1000 (split_inscription_dummy ⟨p2trScript⟩ ⟨p2wpkhScript⟩ ⟨p2wpkhScript⟩
          [700, 800]).vsize +
        (((split_inscription_outputs [700, 800] ⟨p2wpkhScript⟩ ⟨p2wpkhScript⟩).dropLast).map
            TxOut.value).sum ≤ 100000 ∧
      (∃ psbt,
        build_split_inscription_psbt ⟨p2trScript⟩ ⟨9, 0⟩ 100000 [700, 800] ⟨p2wpkhScript⟩
            ⟨p2wpkhScript⟩ 1000 = some psbt ∧
          (psbt.unsigned_tx.output.map TxOut.value).getLast? =
            some (100000 -
              fee_vb 1000 (split_inscription_dummy ⟨p2trScript⟩ ⟨p2wpkhScript⟩ ⟨p2wpkhScript⟩
                  [700, 800]).vsize -
              ((psbt.unsigned_tx.output.dropLast.map TxOut.value).sum)))) :=
  ⟨⟨by decide,
      (split_change_unchecked.1 ⟨p2trScript⟩ ⟨9, 0⟩ 100000 c4runes ⟨p2wpkhScript⟩
          ⟨p2wpkhScript⟩ 1000).2 (by decide)⟩,
    ⟨by decide,
      (split_change_unchecked.2 ⟨p2trScript⟩ ⟨9, 0⟩ 100000 [700, 800] ⟨p2wpkhScript⟩
          ⟨p2wpkhScript⟩ 1000).2 (by decide)⟩⟩

def c9runesA : List (RuneId × Nat) := [(⟨840000, 1⟩, 5), (⟨840000, 2⟩, 7)]

def c9runesB : List (RuneId × Nat) := [(⟨840000, 2⟩, 7), (⟨840000, 1⟩, 5)]

set_option maxRecDepth 40000 in
/-- C9 counterexample: the rune split builder's output is not a function of
the `rune_id → amount` map's contents — two calls whose maps hold exactly
the same (rune id, amount) pairs and agree on every other argument, fed in
the two iteration orders a `HashMap` may present them in (Rust's HashMap
iteration order is seeded per map, not determined by the contents),
produce different PSBTs: the edicts' output indices, hence the runestone
script, hence the unsigned transaction differ. -/
theorem split_rune_map_order_cex :
    c9runesA.Perm c9runesB ∧
      build_split_rune_psbt ⟨p2trScript⟩ ⟨9, 0⟩ 100000 c9runesA ⟨p2wpkhScript⟩
          ⟨p2wpkhScript⟩ 1000 ≠
        build_split_rune_psbt ⟨p2trScript⟩ ⟨9, 0⟩ 100000 c9runesB ⟨p2wpkhScript⟩
          ⟨p2wpkhScript⟩ 1000 :=
  ⟨by decide, by decide⟩

/-- C9 amended: the builders are deterministic pure functions of their
explicit inputs, where for the rune split builder the input includes the
map's iteration sequence: two calls with equal iteration sequences (and
equal remaining arguments) produce identical PSBTs — same output order,
same edict list, same runestone script; equal map contents alone do not
suffice (the iteration order of Rust's HashMap is not determined by them,
see the counterexample). -/
theorem split_rune_deterministic (ordi_addr : Address) (outpoint : OutPoint) (amount : Nat)
    (r1 r2 : List (RuneId × Nat)) (recv change_addr : Address) (fee_rate : Nat)
    (h : r1 = r2) :
    build_split_rune_psbt ordi_addr outpoint amount r1 recv change_addr fee_rate =
      build_split_rune_psbt ordi_addr outpoint amount r2 recv change_addr fee_rate := by
  rw [h]

theorem split_rune_deterministic_witness :
    build_split_rune_psbt ⟨p2trScript⟩ ⟨9, 0⟩ 100000 [(⟨840000, 1⟩, 5)] ⟨p2wpkhScript⟩
        ⟨p2wpkhScript⟩ 1000 =
      build_split_rune_psbt ⟨p2trScript⟩ ⟨9, 0⟩ 100000 [(⟨840000, 1⟩, 5)] ⟨p2wpkhScript⟩
        ⟨p2wpkhScript⟩ 1000 :=
  split_rune_deterministic ⟨p2trScript⟩ ⟨9, 0⟩ 100000 [(⟨840000, 1⟩, 5)]
    [(⟨840000, 1⟩, 5)] ⟨p2wpkhScript⟩ ⟨p2wpkhScript⟩ 1000 rfl

end DFfi
